import Mathlib

/-!
Verification development for the `vscode-image-dup-checker` extension.

The repository contains two near-duplicate variants of the same logic:
`src/extension.ts` (variant A: literal search roots, recursive walk only)
and `src/unnamed/part_000` (variant B: glob patterns via the host's
`findFiles`, with a recursive-walk fallback).  Both are embedded below.

Modelling conventions:
* Filesystem paths are component lists (`Path := List String`);
  `path.join root name` becomes `root ++ [name]` and
  `path.relative root full` (always used with `full` under `root`)
  becomes `full.drop root.length`.
* File bytes are `List Nat` (each entry a byte value).
* The MD5 digest produced by `crypto.createHash('md5')` is embedded as a
  full executable MD5 over byte lists, including the streaming
  `update`/`digest` interface used by `calculateMD5` (the file's bytes
  arrive in arbitrary chunks from `fs.createReadStream`).
* A file whose `calculateMD5` rejects mid-stream carries `hashOk = false`;
  a directory whose `readdir` rejects carries `readable = false`.
-/

namespace ImageDup

/-! ## MD5 (the digest behind `calculateMD5`) -/

/-- Four running 32-bit words of the MD5 state (each kept `< 2^32` by `% 2^32`). -/
abbrev Words4 := Nat × Nat × Nat × Nat

/-- The 64 MD5 round constants `⌊|sin (i+1)| * 2^32⌋` (RFC 1321 table T). -/
def kTable : List Nat :=
  [3614090360, 3905402710, 606105819, 3250441966, 4118548399, 1200080426,
   2821735955, 4249261313, 1770035416, 2336552879, 4294925233, 2304563134,
   1804603682, 4254626195, 2792965006, 1236535329, 4129170786, 3225465664,
   643717713, 3921069994, 3593408605, 38016083, 3634488961, 3889429448,
   568446438, 3275163606, 4107603335, 1163531501, 2850285829, 4243563512,
   1735328473, 2368359562, 4294588738, 2272392833, 1839030562, 4259657740,
   2763975236, 1272893353, 4139469664, 3200236656, 681279174, 3936430074,
   3572445317, 76029189, 3654602809, 3873151461, 530742520, 3299628645,
   4096336452, 1126891415, 2878612391, 4237533241, 1700485571, 2399980690,
   4293915773, 2240044497, 1873313359, 4264355552, 2734768916, 1309151649,
   4149444226, 3174756917, 718787259, 3951481745]

/-- The 64 MD5 per-round left-rotation amounts. -/
def sTable : List Nat :=
  [7, 12, 17, 22, 7, 12, 17, 22, 7, 12, 17, 22, 7, 12, 17, 22,
   5, 9, 14, 20, 5, 9, 14, 20, 5, 9, 14, 20, 5, 9, 14, 20,
   4, 11, 16, 23, 4, 11, 16, 23, 4, 11, 16, 23, 4, 11, 16, 23,
   6, 10, 15, 21, 6, 10, 15, 21, 6, 10, 15, 21, 6, 10, 15, 21]

/-- 32-bit left rotation (input assumed `< 2^32`). -/
def rotl32 (x n : Nat) : Nat := ((x <<< n) ||| (x >>> (32 - n))) % 2 ^ 32

/-- MD5 round function, selected by round index `i` (complement is xor with
the 32-bit all-ones mask, valid for inputs `< 2^32`). -/
def md5F (i b c d : Nat) : Nat :=
  if i < 16 then (b &&& c) ||| ((b ^^^ 0xffffffff) &&& d)
  else if i < 32 then (d &&& b) ||| ((d ^^^ 0xffffffff) &&& c)
  else if i < 48 then b ^^^ c ^^^ d
  else c ^^^ (b ||| (d ^^^ 0xffffffff))

/-- MD5 message-word index for round `i`. -/
def md5G (i : Nat) : Nat :=
  if i < 16 then i
  else if i < 32 then (5 * i + 1) % 16
  else if i < 48 then (3 * i + 5) % 16
  else (7 * i) % 16

/-- Decode little-endian 32-bit word `j` of a 64-byte block. -/
def wordAt (block : List Nat) (j : Nat) : Nat :=
  block.getD (4 * j) 0 + 256 * block.getD (4 * j + 1) 0 +
    65536 * block.getD (4 * j + 2) 0 + 16777216 * block.getD (4 * j + 3) 0

/-- One MD5 round: rotate the four words, mixing in round `i`'s function,
constant and message word. -/
def md5Step (block : List Nat) (st : Words4) (i : Nat) : Words4 :=
  let (a, b, c, d) := st
  let f := (md5F i b c d + a + kTable.getD i 0 + wordAt block (md5G i)) % 2 ^ 32
  (d, (b + rotl32 f (sTable.getD i 0)) % 2 ^ 32, b, c)

/-- Process one 64-byte block: 64 rounds, then add into the running words. -/
def processBlock (h : Words4) (block : List Nat) : Words4 :=
  let (a0, b0, c0, d0) := h
  let (a, b, c, d) := (List.range 64).foldl (md5Step block) (a0, b0, c0, d0)
  ((a0 + a) % 2 ^ 32, (b0 + b) % 2 ^ 32, (c0 + c) % 2 ^ 32, (d0 + d) % 2 ^ 32)

/-- Fuel-indexed block consumption (structural, so the kernel can evaluate
it); any fuel of at least `bs.length` gives the fixpoint behaviour, since
each step removes 64 bytes. -/
def consumeBlocksAux : Nat → Words4 → List Nat → Words4 × List Nat
  | 0, h, bs => (h, bs)
  | fuel + 1, h, bs =>
    if 64 ≤ bs.length then
      consumeBlocksAux fuel (processBlock h (bs.take 64)) (bs.drop 64)
    else (h, bs)

/-- Consume as many leading 64-byte blocks of `bs` as available; return the
updated words and the remaining, short tail. -/
def consumeBlocks (h : Words4) (bs : List Nat) : Words4 × List Nat :=
  consumeBlocksAux bs.length h bs

/-- Streaming MD5 context: running words, buffered short tail, byte count —
the state `crypto`'s incremental `update` interface maintains. -/
structure MD5Ctx where
  h : Words4
  buf : List Nat
  len : Nat
deriving DecidableEq, Repr

/-- Initial MD5 context (RFC 1321 initialisation vector). -/
def md5Init : MD5Ctx :=
  ⟨(0x67452301, 0xefcdab89, 0x98badcfe, 0x10325476), [], 0⟩

/-- `hash.update(data)`: append the chunk to the buffered tail, process all
full blocks, keep the short remainder. -/
def md5Update (ctx : MD5Ctx) (data : List Nat) : MD5Ctx :=
  let r := consumeBlocks ctx.h (ctx.buf ++ data)
  ⟨r.1, r.2, ctx.len + data.length⟩

/-- MD5 trailer: `0x80`, zeros to 56 mod 64, then the bit length as eight
little-endian bytes (mod `2^64`). -/
def md5Padding (len : Nat) : List Nat :=
  0x80 :: List.replicate ((55 + 64 - len % 64) % 64) 0 ++
    (List.range 8).map (fun k => len * 8 % 2 ^ 64 / 256 ^ k % 256)

/-- Hex character for a value `< 16` (digits then lowercase letters). -/
def hexDigit (n : Nat) : Char := Nat.digitChar n

/-- Two lowercase hex characters of one byte. -/
def byteHexChars (b : Nat) : List Char := [hexDigit (b / 16 % 16), hexDigit (b % 16)]

/-- Four little-endian bytes of a 32-bit word. -/
def wordBytesLE (w : Nat) : List Nat :=
  [w % 256, w / 256 % 256, w / 65536 % 256, w / 16777216 % 256]

/-- `hash.digest('hex')` serialisation of the four final words. -/
def wordsToHex (h : Words4) : String :=
  let (a, b, c, d) := h
  String.mk (((wordBytesLE a ++ wordBytesLE b ++ wordBytesLE c ++ wordBytesLE d).map
    byteHexChars).flatten)

/-- `hash.digest('hex')`: pad, absorb the trailer, and print the words. -/
def md5Final (ctx : MD5Ctx) : String :=
  wordsToHex (consumeBlocks ctx.h (ctx.buf ++ md5Padding ctx.len)).1

/-- One-shot MD5 hex digest of a byte list — the fingerprint `calculateMD5`
produces for a file with this byte content. -/
def md5Hex (content : List Nat) : String := md5Final (md5Update md5Init content)

/-- `calculateMD5` as it actually runs: the stream delivers the file's bytes
in chunks; each chunk is fed to `hash.update` and the digest is read at the
`end` event. -/
def md5StreamHex (chunks : List (List Nat)) : String :=
  md5Final (chunks.foldl md5Update md5Init)

/-! ## Paths and `path.extname` -/

/-- A filesystem path as its list of components; `path.join dir name` is
`dir ++ [name]`. -/
abbrev FsPath := List String

/-- `path.relative root full`, in the only shape the code uses it: `full`
lies under `root`, so the relative path is `full` with `root`'s components
dropped. -/
def pathRelative (root full : FsPath) : FsPath := full.drop root.length

/-- Index of the last `'.'` in a character list, if any. -/
def lastDotIdx (cs : List Char) : Option Nat :=
  (cs.enum.filter (fun p => p.2 = '.')).getLast?.map (fun p => p.1)

/-- Node's `path.extname` on a basename: everything from the last dot on,
empty when there is no dot, when the only dot is the leading character, or
for the special name `".."`. -/
def extname (s : String) : String :=
  let cs := s.toList
  if cs = ['.', '.'] then ""
  else
    match lastDotIdx cs with
    | some i => if 1 ≤ i then String.mk (cs.drop i) else ""
    | none => ""

/-- JS `String.prototype.toLowerCase()` as used on extension strings
(ASCII case mapping), working on the character list so that it is
executable by kernel reduction. -/
def strToLower (s : String) : String := String.mk (s.toList.map Char.toLower)

/-- JS `String.prototype.startsWith(pre)`, via character-list prefix
testing. -/
def strStartsWith (s pre : String) : Bool := pre.toList.isPrefixOf s.toList

/-! ## Filesystem fixtures -/

/-- The entry list of a fixture directory, written as a fused cons-list so
every traversal below is structurally recursive (hence executable by
`decide`/`rfl`).  A file carries its byte content and whether
`calculateMD5` on it succeeds (`hashOk = false`: the read stream errors,
the promise rejects); a directory carries whether `fs.promises.readdir` on
it succeeds (`readable = false`: the `readdir` throws and the subtree is
abandoned by the `catch`) and its own entry list. -/
inductive FSEntries where
  | nil
  | file (name : String) (content : List Nat) (hashOk : Bool) (rest : FSEntries)
  | dir (name : String) (readable : Bool) (children : FSEntries) (rest : FSEntries)

/-- What sits on disk at a given path: a plain file, or a directory with
its entries (`readable = false`: `readdir` on it throws). -/
inductive FSNode where
  | file (content : List Nat) (hashOk : Bool)
  | dir (readable : Bool) (entries : FSEntries)

/-- One record per successfully scanned file (`ImageInfo` in the source). -/
structure ImageInfo where
  filePath : FsPath
  md5 : String
  relativePath : FsPath
deriving DecidableEq, Repr

/-! ## Recursive walker (`scanImageFiles` / `scanImageFilesDefault`) -/

/-- The body of `scanDirectory`'s entry loop, recursing into readable
subdirectories.  `normExts` is the already-lowercased extension list; each
entry named `node_modules` or starting with `.` is skipped; a file passing
the (lowercased) extension filter yields a record when its hash succeeds and
is skipped with a logged error when it fails; an unreadable directory's
subtree is abandoned. -/
def scanChildren (normExts : List String) (rootPath : FsPath) :
    FsPath → FSEntries → List ImageInfo
  | _, .nil => []
  | dirPath, .file name content hashOk rest =>
    (if name == "node_modules" || strStartsWith name "." then []
     else
       let ext := strToLower (extname name)
       if normExts.contains ext then
         if hashOk then
           [{ filePath := dirPath ++ [name], md5 := md5Hex content,
              relativePath := pathRelative rootPath (dirPath ++ [name]) }]
         else []
       else []) ++
    scanChildren normExts rootPath dirPath rest
  | dirPath, .dir name readable children rest =>
    (if name == "node_modules" || strStartsWith name "." then []
     else if readable then scanChildren normExts rootPath (dirPath ++ [name]) children
     else []) ++
    scanChildren normExts rootPath dirPath rest

/-- `scanDirectory dirPath` applied to the node found there: read the
directory (nothing on failure, and `readdir` on a plain file fails) and
process its entries. -/
def scanDirectory (normExts : List String) (rootPath dirPath : FsPath) :
    FSNode → List ImageInfo
  | .file _ _ => []
  | .dir readable entries =>
    if readable then scanChildren normExts rootPath dirPath entries else []

/-- `scanImageFiles rootPath`: lowercase the configured extensions once,
then walk the node rooted at `rootPath`. -/
def scanImageFiles (extensions : List String) (rootPath : FsPath) (t : FSNode) :
    List ImageInfo :=
  scanDirectory (extensions.map strToLower) rootPath rootPath t

/-! ## Host facade and configuration -/

/-- The host capabilities the scan touches: `fs.existsSync`, `calculateMD5`
on an arbitrary path (`none` = the hash promise rejects), the fixture node
rooted at a path for the recursive walker, and
`vscode.workspace.findFiles includePattern excludePattern` (`none` = the
pattern fails to resolve and the `catch` skips it). -/
structure HostFS where
  pathOnDisk : FsPath → Bool
  hashContent : FsPath → Option (List Nat)
  treeAt : FsPath → FSNode
  findFiles : String → String → Option (List FsPath)

/-- The effective configuration of one invocation, after the `||`-defaults
in the source (`imageExtensions` defaults to the six image extensions,
`searchPaths` to `[]`), together with the host's workspace folder list. -/
structure Config where
  imageExtensions : List String
  searchPaths : List String
  workspaceFolders : List FsPath

/-- The default `imageExtensions` value. -/
def defaultExtensions : List String := [".png", ".jpg", ".jpeg", ".gif", ".bmp", ".webp"]

/-! ## Glob-mode walker (`scanImageFilesWithGlob`, variant B) -/

/-- The per-pattern loop of `scanImageFilesWithGlob`: resolve each pattern
via `findFiles` with the fixed `'**/node_modules/**'` exclusion (a failing
pattern is logged and skipped), re-filter each result by lowercased
extension, and hash it (a failing hash is logged and the file skipped). -/
def globPatternScan (host : HostFS) (normExts : List String) (workspaceRoot : FsPath) :
    List String → List ImageInfo
  | [] => []
  | pat :: rest =>
    (match host.findFiles pat "**/node_modules/**" with
     | none => []
     | some files =>
       files.filterMap (fun fp =>
         let ext := strToLower (extname (fp.getLastD ""))
         if !normExts.contains ext then none
         else
           match host.hashContent fp with
           | some c =>
             some { filePath := fp, md5 := md5Hex c,
                    relativePath := pathRelative workspaceRoot fp }
           | none => none)) ++
    globPatternScan host normExts workspaceRoot rest

/-- `scanImageFilesWithGlob`: with no patterns, fall back to the default
recursive walk of the workspace root; otherwise run the glob loop with the
lowercased configured extensions. -/
def scanImageFilesWithGlob (host : HostFS) (cfg : Config) (globPatterns : List String)
    (workspaceRoot : FsPath) : List ImageInfo :=
  if globPatterns.length = 0 then
    scanImageFiles cfg.imageExtensions workspaceRoot (host.treeAt workspaceRoot)
  else
    globPatternScan host (cfg.imageExtensions.map strToLower) workspaceRoot globPatterns

/-! ## Outcomes and the orchestrator -/

/-- A scan's outward result.  `DuplicatesFound` carries the records the
QuickPick displays; the fatal cases are the four user-visible error
messages. -/
inductive Outcome where
  | NoneFound
  | OnlySelfFound
  | DuplicatesFound (others : List ImageInfo)
  | FileNotFound
  | NotAnImage
  | NoWorkspace
  | IOError
deriving DecidableEq, Repr

/-- `findDuplicates`: every scanned record whose fingerprint equals the
target's. -/
def findDuplicates (targetMD5 : String) (allImages : List ImageInfo) : List ImageInfo :=
  allImages.filter (fun img => img.md5 == targetMD5)

/-- The list `showDuplicatesQuickPick` actually displays: the duplicates it
is handed, minus every record whose path equals the target path. -/
def quickPickDisplayed (duplicates : List ImageInfo) (targetPath : FsPath) : List ImageInfo :=
  duplicates.filter (fun img => img.filePath != targetPath)

/-- The candidate-gathering loop of variant A (`src/extension.ts` lines
208–221): each search root that exists on disk is walked recursively; a
missing root contributes nothing. -/
def allImagesA (host : HostFS) (extensions : List String) (roots : List FsPath) :
    List ImageInfo :=
  roots.flatMap (fun r =>
    if host.pathOnDisk r then scanImageFiles extensions r (host.treeAt r) else [])

/-- The search roots of variant A (`src/extension.ts` lines 197–199): a
non-empty `searchPaths` is a list of subdirectory names each joined onto the
workspace root; otherwise the single workspace root. -/
def searchRootsA (cfg : Config) (workspaceRoot : FsPath) : List FsPath :=
  if 0 < cfg.searchPaths.length then
    cfg.searchPaths.map (fun p => workspaceRoot ++ [p])
  else [workspaceRoot]

/-- The command handler of variant A (`src/extension.ts`): existence check,
extension check, hash the target (a rejection escapes to the outer `catch`
as the `IOError` message), workspace check, join each configured search path
onto the workspace root (or default to the root itself), gather candidates,
and resolve the outcome. -/
def runScanA (host : HostFS) (cfg : Config) (targetPath : FsPath) : Outcome :=
  if !host.pathOnDisk targetPath then .FileNotFound
  else
    let ext := strToLower (extname (targetPath.getLastD ""))
    if !cfg.imageExtensions.contains ext then .NotAnImage
    else
      match host.hashContent targetPath with
      | none => .IOError
      | some tc =>
        let targetMD5 := md5Hex tc
        match cfg.workspaceFolders with
        | [] => .NoWorkspace
        | workspaceRoot :: _ =>
          let allImages := allImagesA host cfg.imageExtensions (searchRootsA cfg workspaceRoot)
          let duplicates := findDuplicates targetMD5 allImages
          if duplicates.isEmpty then .NoneFound
          else
            let otherDuplicates := duplicates.filter (fun img => img.filePath != targetPath)
            if otherDuplicates.isEmpty then .OnlySelfFound
            else .DuplicatesFound (quickPickDisplayed duplicates targetPath)

/-- The command handler of variant B (`src/unnamed/part_000`): existence
check, extension check, workspace check, then — inside the progress
notification — hash the target (a rejection escapes to the outer `catch` as
the `IOError` message), scan via `scanImageFilesWithGlob`, and resolve the
outcome. -/
def runScanB (host : HostFS) (cfg : Config) (targetPath : FsPath) : Outcome :=
  if !host.pathOnDisk targetPath then .FileNotFound
  else
    let ext := strToLower (extname (targetPath.getLastD ""))
    if !cfg.imageExtensions.contains ext then .NotAnImage
    else
      match cfg.workspaceFolders with
      | [] => .NoWorkspace
      | workspaceRoot :: _ =>
        match host.hashContent targetPath with
        | none => .IOError
        | some tc =>
          let allImages := scanImageFilesWithGlob host cfg cfg.searchPaths workspaceRoot
          let duplicates := findDuplicates (md5Hex tc) allImages
          if duplicates.isEmpty then .NoneFound
          else
            let otherDuplicates := duplicates.filter (fun img => img.filePath != targetPath)
            if otherDuplicates.isEmpty then .OnlySelfFound
            else .DuplicatesFound (quickPickDisplayed duplicates targetPath)

/-- The duplicate set `matches` of variant A's resolve-outcome phase, named
for the statements below. -/
def matchesA (host : HostFS) (cfg : Config) (tc : List Nat) (w : FsPath) : List ImageInfo :=
  findDuplicates (md5Hex tc) (allImagesA host cfg.imageExtensions (searchRootsA cfg w))

/-- The duplicate set `matches` of variant B's resolve-outcome phase. -/
def matchesB (host : HostFS) (cfg : Config) (tc : List Nat) (w : FsPath) : List ImageInfo :=
  findDuplicates (md5Hex tc) (scanImageFilesWithGlob host cfg cfg.searchPaths w)

/-! ## Specification-side traversal (for the walker claims) -/

/-- The files reachable from a directory's entry list under the traversal
rules alone — entries named `node_modules` or starting with `.` are not
entered, unreadable directories are not entered — before any extension
filtering.  Each reachable file is reported as (directory components below
the start, file name, byte content, hash flag).  This is the spec's notion
of "reachable file", stated independently of the walker. -/
def reachableFiles : FSEntries → List (List String × String × List Nat × Bool)
  | .nil => []
  | .file name content hashOk rest =>
    (if name == "node_modules" || strStartsWith name "." then []
     else [([], name, content, hashOk)]) ++ reachableFiles rest
  | .dir name readable children rest =>
    (if name == "node_modules" || strStartsWith name "." then []
     else if readable then
       (reachableFiles children).map (fun q => (name :: q.1, q.2))
     else []) ++ reachableFiles rest

/-- `reachableFiles` lifted to a node, mirroring `scanDirectory`'s
top-level `readdir`. -/
def reachableTree : FSNode → List (List String × String × List Nat × Bool)
  | .file _ _ => []
  | .dir readable entries => if readable then reachableFiles entries else []

/-- The record the walker produces for a reachable file that passes the
extension filter and hashes successfully, or `none` otherwise. -/
def recordOf (normExts : List String) (rootPath dirPath : FsPath)
    (q : List String × String × List Nat × Bool) : Option ImageInfo :=
  if normExts.contains (strToLower (extname q.2.1)) && q.2.2.2 then
    some { filePath := dirPath ++ q.1 ++ [q.2.1], md5 := md5Hex q.2.2.1,
           relativePath := pathRelative rootPath (dirPath ++ q.1 ++ [q.2.1]) }
  else none

/-! ## Witness fixtures -/

/-- A workspace root with two sibling images, one sharing the target's
content. -/
def treeW : FSNode :=
  .dir true (.file "a.png" [1] true (.file "b.png" [2] true .nil))

/-- Host for the witness fixtures: the workspace root `root` holds `treeW`;
the target `root/t.png` exists and hashes to the content `[1]`. -/
def hostW : HostFS :=
  { pathOnDisk := fun p => p == ["root"] || p == ["root", "t.png"],
    hashContent := fun p => if p == ["root", "t.png"] then some [1] else none,
    treeAt := fun _ => treeW,
    findFiles := fun _ _ => some [] }

/-- Default configuration over the single workspace root `root`. -/
def cfgW : Config :=
  { imageExtensions := defaultExtensions, searchPaths := [], workspaceFolders := [["root"]] }

def hostHashFail : HostFS :=
  { pathOnDisk := fun p => p == ["root", "t.png"],
    hashContent := fun _ => none,
    treeAt := fun _ => treeW,
    findFiles := fun _ _ => some [] }

def cfgNoWs : Config :=
  { imageExtensions := defaultExtensions, searchPaths := [], workspaceFolders := [] }

/-! ## C2 fixtures: a subdirectory `sub` with a nested duplicate -/

/-- The directory `root/sub`: a nested subdirectory holding `a.png`. -/
def treeC2 : FSNode :=
  .dir true (.dir "nested" true (.file "a.png" [1] true .nil) .nil)

/-- Host where `root/sub` exists on disk and holds `treeC2`, while glob
resolution of any pattern returns no files (in particular the literal
pattern `sub` matches no file). -/
def hostC2 : HostFS :=
  { pathOnDisk := fun p => p == ["root", "t.png"] || p == ["root", "sub"],
    hashContent := fun p => if p == ["root", "t.png"] then some [1] else none,
    treeAt := fun _ => treeC2,
    findFiles := fun _ _ => some [] }

/-- Configuration with the single non-empty search path `sub`. -/
def cfgC2 : Config :=
  { imageExtensions := defaultExtensions, searchPaths := ["sub"],
    workspaceFolders := [["root"]] }

/-! ## Theorems -/

theorem consumeBlocksAux_short (f : Nat) (h : Words4) (bs : List Nat) (hlt : bs.length < 64) :
    consumeBlocksAux f h bs = (h, bs) := by
  cases f with
  | zero => rfl
  | succ f => simp [consumeBlocksAux, Nat.not_le.mpr hlt]
theorem consumeBlocksAux_fuel (f : Nat) : ∀ (g : Nat) (h : Words4) (bs : List Nat),
    bs.length ≤ f → bs.length ≤ g → consumeBlocksAux f h bs = consumeBlocksAux g h bs := by
  induction f with
  | zero =>
    intro g h bs hf _
    have : bs.length < 64 := by omega
    rw [consumeBlocksAux_short 0 h bs this, consumeBlocksAux_short g h bs this]
  | succ f ih =>
    intro g h bs hf hg
    by_cases h64 : 64 ≤ bs.length
    · obtain ⟨g', rfl⟩ : ∃ g', g = g' + 1 := ⟨g - 1, by omega⟩
      simp only [consumeBlocksAux, if_pos h64]
      exact ih g' _ _ (by simp; omega) (by simp; omega)
    · have hlt : bs.length < 64 := by omega
      rw [consumeBlocksAux_short _ h bs hlt, consumeBlocksAux_short g h bs hlt]
theorem consumeBlocks_short (h : Words4) (bs : List Nat) (hlt : bs.length < 64) :
    consumeBlocks h bs = (h, bs) :=
  consumeBlocksAux_short _ h bs hlt
theorem consumeBlocks_step (h : Words4) (bs : List Nat) (h64 : 64 ≤ bs.length) :
    consumeBlocks h bs = consumeBlocks (processBlock h (bs.take 64)) (bs.drop 64) := by
  unfold consumeBlocks
  obtain ⟨n, hn⟩ : ∃ n, bs.length = n + 1 := ⟨bs.length - 1, by omega⟩
  rw [hn]
  simp only [consumeBlocksAux, if_pos h64]
  exact consumeBlocksAux_fuel n _ _ _ (by simp; omega) (by simp)
theorem consumeBlocks_append_n (n : Nat) : ∀ (xs : List Nat), xs.length ≤ n →
    ∀ (h : Words4) (ys : List Nat),
    consumeBlocks h (xs ++ ys) =
      consumeBlocks (consumeBlocks h xs).1 ((consumeBlocks h xs).2 ++ ys) := by
  induction n with
  | zero =>
    intro xs hxs h ys
    have hx : xs = [] := List.eq_nil_of_length_eq_zero (by omega)
    subst hx
    rw [consumeBlocks_short h [] (by simp)]
  | succ n ih =>
    intro xs hxs h ys
    by_cases h64 : 64 ≤ xs.length
    · rw [consumeBlocks_step h (xs ++ ys) (by simp; omega),
        List.take_append_of_le_length h64, List.drop_append_of_le_length h64,
        consumeBlocks_step h xs h64]
      exact ih (xs.drop 64) (by simp; omega) _ ys
    · rw [consumeBlocks_short h xs (by omega)]
theorem consumeBlocks_append (h : Words4) (xs ys : List Nat) :
    consumeBlocks h (xs ++ ys) =
      consumeBlocks (consumeBlocks h xs).1 ((consumeBlocks h xs).2 ++ ys) :=
  consumeBlocks_append_n xs.length xs le_rfl h ys
theorem md5Update_append (ctx : MD5Ctx) (d1 d2 : List Nat) :
    md5Update (md5Update ctx d1) d2 = md5Update ctx (d1 ++ d2) := by
  simp only [md5Update, ← List.append_assoc, ← consumeBlocks_append]
  simp [Nat.add_assoc]
theorem foldl_md5Update (chunks : List (List Nat)) : ∀ (ctx : MD5Ctx) (acc : List Nat),
    List.foldl md5Update (md5Update ctx acc) chunks = md5Update ctx (acc ++ chunks.flatten) := by
  induction chunks with
  | nil => intro ctx acc; simp
  | cons c cs ih =>
    intro ctx acc
    simp only [List.foldl_cons, md5Update_append, ih, List.flatten_cons, List.append_assoc]
theorem md5Update_init_nil : md5Update md5Init [] = md5Init := rfl
theorem md5StreamHex_flatten (chunks : List (List Nat)) :
    md5StreamHex chunks = md5Hex chunks.flatten := by
  unfold md5StreamHex md5Hex
  have h : List.foldl md5Update md5Init chunks = md5Update md5Init ([] ++ chunks.flatten) := by
    rw [← foldl_md5Update chunks md5Init [], md5Update_init_nil]
  rw [h, List.nil_append]
theorem wordsToHex_length (h : Words4) : (wordsToHex h).length = 32 := by
  obtain ⟨a, b, c, d⟩ := h
  simp [wordsToHex, wordBytesLE, byteHexChars, String.length]
theorem md5Final_length (ctx : MD5Ctx) : (md5Final ctx).length = 32 := wordsToHex_length _
theorem md5Hex_length (content : List Nat) : (md5Hex content).length = 32 := md5Final_length _
end ImageDup

namespace ImageDup
theorem scanChildren_eq (normExts : List String) (root : FsPath) :
    ∀ (children : FSEntries) (dirPath : FsPath),
    scanChildren normExts root dirPath children =
      (reachableFiles children).filterMap (recordOf normExts root dirPath) := by
  intro children
  induction children with
  | nil => intro dirPath; simp [scanChildren, reachableFiles]
  | file name content hashOk rest ihrest =>
    intro dirPath
    simp only [scanChildren, reachableFiles, List.filterMap_append]
    rw [ihrest]
    congr 1
    by_cases hskip : (name == "node_modules" || strStartsWith name ".") = true
    · simp [hskip]
    · simp only [Bool.not_eq_true] at hskip
      simp only [hskip, Bool.false_eq_true, if_false, List.filterMap_cons,
        List.filterMap_nil]
      by_cases hext : strToLower (extname name) ∈ normExts
      · cases hashOk with
        | true => simp [recordOf, hext, pathRelative]
        | false => simp [recordOf, hext]
      · simp [recordOf, hext]
  | dir name readable cs rest ihcs ihrest =>
    intro dirPath
    simp only [scanChildren, reachableFiles, List.filterMap_append]
    rw [ihrest]
    congr 1
    by_cases hskip : (name == "node_modules" || strStartsWith name ".") = true
    · simp [hskip]
    · simp only [Bool.not_eq_true] at hskip
      by_cases hr : readable = true
      · simp only [hskip, Bool.false_eq_true, if_false, hr, if_true]
        rw [ihcs, List.filterMap_map]
        have hfun : recordOf normExts root dirPath ∘ (fun q => (name :: q.1, q.2)) =
            recordOf normExts root (dirPath ++ [name]) := by
          funext q
          obtain ⟨dirs, fname, c, ok⟩ := q
          have hp : dirPath ++ (name :: dirs) = (dirPath ++ [name]) ++ dirs := by simp
          simp only [Function.comp_apply, recordOf, pathRelative, hp]
        rw [hfun]
      · simp only [Bool.not_eq_true] at hr
        simp [hskip, hr]

theorem scanImageFiles_eq (extensions : List String) (root : FsPath) (t : FSNode) :
    scanImageFiles extensions root t =
      (reachableTree t).filterMap (recordOf (extensions.map strToLower) root root) := by
  cases t with
  | file content hashOk => simp [scanImageFiles, scanDirectory, reachableTree]
  | dir readable entries =>
    cases readable with
    | true =>
      simp only [scanImageFiles, scanDirectory, reachableTree, if_true]
      exact scanChildren_eq _ root entries root
    | false => simp [scanImageFiles, scanDirectory, reachableTree]

theorem reachableFiles_clean : ∀ (children : FSEntries)
    (q : List String × String × List Nat × Bool), q ∈ reachableFiles children →
    (∀ comp ∈ q.1, comp ≠ "node_modules" ∧ strStartsWith comp "." = false) ∧
      q.2.1 ≠ "node_modules" ∧ strStartsWith (q.2.1) "." = false := by
  intro children
  induction children with
  | nil => intro q hq; simp [reachableFiles] at hq
  | file name content hashOk rest ihrest =>
    intro q hq
    simp only [reachableFiles, List.mem_append] at hq
    rcases hq with hq | hq
    · by_cases hskip : (name == "node_modules" || strStartsWith name ".") = true
      · simp [hskip] at hq
      · simp only [Bool.not_eq_true, Bool.or_eq_false_iff] at hskip
        obtain ⟨h1, h2⟩ := hskip
        simp only [h1, h2] at hq
        simp only [Bool.or_self, Bool.false_eq_true, if_false, List.mem_singleton] at hq
        subst hq
        refine ⟨by simp, ?_, h2⟩
        intro hn
        subst hn
        simp at h1
    · exact ihrest q hq
  | dir name readable cs rest ihcs ihrest =>
    intro q hq
    simp only [reachableFiles, List.mem_append] at hq
    rcases hq with hq | hq
    · by_cases hskip : (name == "node_modules" || strStartsWith name ".") = true
      · simp [hskip] at hq
      · simp only [Bool.not_eq_true, Bool.or_eq_false_iff] at hskip
        obtain ⟨h1, h2⟩ := hskip
        simp only [h1, h2, Bool.or_self, Bool.false_eq_true, if_false] at hq
        cases readable with
        | false => simp at hq
        | true =>
          simp only [if_true, List.mem_map] at hq
          obtain ⟨q0, hq0, rfl⟩ := hq
          obtain ⟨ih1, ih2, ih3⟩ := ihcs q0 hq0
          refine ⟨?_, ih2, ih3⟩
          intro comp hcomp
          simp only [List.mem_cons] at hcomp
          rcases hcomp with rfl | hcomp
          · refine ⟨?_, h2⟩
            intro hn
            subst hn
            simp at h1
          · exact ih1 comp hcomp
    · exact ihrest q hq

theorem mem_scanImageFiles (extensions : List String) (root : FsPath) (t : FSNode)
    (r : ImageInfo) (hr : r ∈ scanImageFiles extensions root t) :
    ∃ dirs fname c, (dirs, fname, c, true) ∈ reachableTree t ∧
      (extensions.map strToLower).contains (strToLower (extname fname)) = true ∧
      r = ⟨root ++ dirs ++ [fname], md5Hex c, dirs ++ [fname]⟩ := by
  rw [scanImageFiles_eq, List.mem_filterMap] at hr
  obtain ⟨⟨dirs, fname, c, ok⟩, hmem, hrec⟩ := hr
  simp only [recordOf] at hrec
  by_cases hcond :
      ((extensions.map strToLower).contains (strToLower (extname fname)) && ok) = true
  · rw [if_pos hcond] at hrec
    simp only [Bool.and_eq_true] at hcond
    obtain ⟨hext, hok⟩ := hcond
    subst hok
    cases hrec
    refine ⟨dirs, fname, c, hmem, hext, ?_⟩
    simp [pathRelative, List.append_assoc, List.drop_left]
  · rw [if_neg hcond] at hrec
    cases hrec

theorem mem_globPatternScan (host : HostFS) (normExts : List String) (w : FsPath) :
    ∀ (pats : List String) (r : ImageInfo), r ∈ globPatternScan host normExts w pats →
    ∃ pat files fp c, pat ∈ pats ∧
      host.findFiles pat "**/node_modules/**" = some files ∧ fp ∈ files ∧
      normExts.contains (strToLower (extname (fp.getLastD ""))) = true ∧
      host.hashContent fp = some c ∧
      r = ⟨fp, md5Hex c, pathRelative w fp⟩ := by
  intro pats
  induction pats with
  | nil => intro r hr; simp [globPatternScan] at hr
  | cons pat rest ih =>
    intro r hr
    simp only [globPatternScan] at hr
    rw [List.mem_append] at hr
    rcases hr with hr | hr
    · cases hf : host.findFiles pat "**/node_modules/**" with
      | none => rw [hf] at hr; simp at hr
      | some files =>
        rw [hf] at hr
        rw [List.mem_filterMap] at hr
        obtain ⟨fp, hfp, hsome⟩ := hr
        by_cases hcond : (!normExts.contains (strToLower (extname (fp.getLastD "")))) = true
        · rw [if_pos hcond] at hsome
          exact Option.noConfusion hsome
        · rw [if_neg hcond] at hsome
          have hext : normExts.contains (strToLower (extname (fp.getLastD ""))) = true := by
            revert hcond
            cases normExts.contains (strToLower (extname (fp.getLastD ""))) <;> simp
          cases hc : host.hashContent fp with
          | none =>
            rw [hc] at hsome
            exact Option.noConfusion hsome
          | some c =>
            rw [hc] at hsome
            simp only [Option.some.injEq] at hsome
            subst hsome
            exact ⟨pat, files, fp, c, List.mem_cons_self pat rest, hf, hfp, hext, hc, rfl⟩
    · obtain ⟨p2, files, fp, c, hp2, hrest⟩ := ih r hr
      exact ⟨p2, files, fp, c, List.mem_cons_of_mem pat hp2, hrest⟩

theorem runScanA_resolve (host : HostFS) (cfg : Config) (targetPath : FsPath) (tc : List Nat)
    (hex : host.pathOnDisk targetPath = true)
    (himg : cfg.imageExtensions.contains (strToLower (extname (targetPath.getLastD ""))) = true)
    (hhash : host.hashContent targetPath = some tc)
    (w : FsPath) (ws : List FsPath) (hws : cfg.workspaceFolders = w :: ws) :
    runScanA host cfg targetPath =
      (if (matchesA host cfg tc w).isEmpty then .NoneFound
       else if ((matchesA host cfg tc w).filter (fun img => img.filePath != targetPath)).isEmpty
       then .OnlySelfFound
       else .DuplicatesFound (quickPickDisplayed (matchesA host cfg tc w) targetPath)) := by
  unfold runScanA matchesA
  simp only [hex, himg, hhash, hws, Bool.not_true, Bool.false_eq_true, if_false]

theorem runScanB_resolve (host : HostFS) (cfg : Config) (targetPath : FsPath) (tc : List Nat)
    (hex : host.pathOnDisk targetPath = true)
    (himg : cfg.imageExtensions.contains (strToLower (extname (targetPath.getLastD ""))) = true)
    (hhash : host.hashContent targetPath = some tc)
    (w : FsPath) (ws : List FsPath) (hws : cfg.workspaceFolders = w :: ws) :
    runScanB host cfg targetPath =
      (if (matchesB host cfg tc w).isEmpty then .NoneFound
       else if ((matchesB host cfg tc w).filter (fun img => img.filePath != targetPath)).isEmpty
       then .OnlySelfFound
       else .DuplicatesFound (quickPickDisplayed (matchesB host cfg tc w) targetPath)) := by
  unfold runScanB matchesB
  simp only [hex, himg, hhash, hws, Bool.not_true, Bool.false_eq_true, if_false]
/-- C1: once a scan reaches the resolve-outcome phase (target exists, is an
image, hashes, and a workspace is configured), the result is exactly one of
the three outcomes determined by `matches` (the scanned records sharing the
target's fingerprint) and `others` (`matches` minus the records whose path
equals the target path, i.e. `quickPickDisplayed matches targetPath`):
`NoneFound` when `matches` is empty, `OnlySelfFound` when only `others` is
empty, `DuplicatesFound others` otherwise — and no reported record's path
equals the target path.  Proved for both variants. -/
theorem c1_resolve_outcome (host : HostFS) (cfg : Config) (targetPath : FsPath) (tc : List Nat)
    (hex : host.pathOnDisk targetPath = true)
    (himg : cfg.imageExtensions.contains (strToLower (extname (targetPath.getLastD ""))) = true)
    (hhash : host.hashContent targetPath = some tc)
    (w : FsPath) (ws : List FsPath) (hws : cfg.workspaceFolders = w :: ws) :
    ((matchesA host cfg tc w = [] → runScanA host cfg targetPath = .NoneFound) ∧
     (matchesA host cfg tc w ≠ [] → quickPickDisplayed (matchesA host cfg tc w) targetPath = [] →
        runScanA host cfg targetPath = .OnlySelfFound) ∧
     (quickPickDisplayed (matchesA host cfg tc w) targetPath ≠ [] →
        runScanA host cfg targetPath =
          .DuplicatesFound (quickPickDisplayed (matchesA host cfg tc w) targetPath) ∧
        ∀ r ∈ quickPickDisplayed (matchesA host cfg tc w) targetPath, r.filePath ≠ targetPath)) ∧
    ((matchesB host cfg tc w = [] → runScanB host cfg targetPath = .NoneFound) ∧
     (matchesB host cfg tc w ≠ [] → quickPickDisplayed (matchesB host cfg tc w) targetPath = [] →
        runScanB host cfg targetPath = .OnlySelfFound) ∧
     (quickPickDisplayed (matchesB host cfg tc w) targetPath ≠ [] →
        runScanB host cfg targetPath =
          .DuplicatesFound (quickPickDisplayed (matchesB host cfg tc w) targetPath) ∧
        ∀ r ∈ quickPickDisplayed (matchesB host cfg tc w) targetPath, r.filePath ≠ targetPath)) := by
  rw [runScanA_resolve host cfg targetPath tc hex himg hhash w ws hws,
    runScanB_resolve host cfg targetPath tc hex himg hhash w ws hws]
  have hmem : ∀ (l : List ImageInfo) (r : ImageInfo),
      r ∈ quickPickDisplayed l targetPath → r.filePath ≠ targetPath := by
    intro l r hr
    rw [quickPickDisplayed, List.mem_filter] at hr
    exact bne_iff_ne.mp hr.2
  refine ⟨⟨?_, ?_, ?_⟩, ?_, ?_, ?_⟩ <;> intro h1
  · simp [List.isEmpty_iff, h1]
  · intro h2
    rw [quickPickDisplayed] at h2
    simp [List.isEmpty_iff, h1, h2]
  · rw [quickPickDisplayed] at h1
    have hne : matchesA host cfg tc w ≠ [] := by
      intro hnil
      rw [hnil] at h1
      simp at h1
    refine ⟨?_, hmem _⟩
    simp [List.isEmpty_iff, hne, h1, quickPickDisplayed]
  · simp [List.isEmpty_iff, h1]
  · intro h2
    rw [quickPickDisplayed] at h2
    simp [List.isEmpty_iff, h1, h2]
  · rw [quickPickDisplayed] at h1
    have hne : matchesB host cfg tc w ≠ [] := by
      intro hnil
      rw [hnil] at h1
      simp at h1
    refine ⟨?_, hmem _⟩
    simp [List.isEmpty_iff, hne, h1, quickPickDisplayed]

/-- Witness for C1: in the fixture, the sibling `a.png` has the target's
content, so the scan reports exactly that record and the reported list is
non-empty. -/
theorem c1_resolve_outcome_witness :
    quickPickDisplayed (matchesA hostW cfgW [1] ["root"]) ["root", "t.png"] ≠ [] ∧
    runScanA hostW cfgW ["root", "t.png"] =
      .DuplicatesFound (quickPickDisplayed (matchesA hostW cfgW [1] ["root"]) ["root", "t.png"]) :=
  have h := (c1_resolve_outcome hostW cfgW ["root", "t.png"] [1] (by decide) (by decide)
    (by decide) ["root"] [] rfl).1.2.2 (by decide)
  ⟨by decide, h.1⟩

/-- C3 counterexample: with no workspace configured, a target that exists,
is an image, and fails to hash, variant A reports the hash failure
(`IOError`) — so the workspace validation did not happen before the target
was hashed, contradicting the claim that all three validations precede
hashing. -/
theorem c3_counterexample :
    runScanA hostHashFail cfgNoWs ["root", "t.png"] = .IOError ∧
    Outcome.IOError ≠ Outcome.NoWorkspace := by
  constructor
  · decide
  · decide

/-- C3 amended: the exists- and extension-validations precede hashing in
both variants, and a non-existent target fails with `FileNotFound` for every
host walker state (the conclusion holds for all `host.treeAt` /
`host.findFiles`, so the walker is never consulted); but the workspace check
precedes hashing only in variant B — variant A hashes the target first, so
with no workspace and an unreadable target it reports `IOError` instead of
`NoWorkspace`. -/
theorem c3_validate_before_hash (host : HostFS) (cfg : Config) (t : FsPath) :
    (host.pathOnDisk t = false →
       runScanA host cfg t = .FileNotFound ∧ runScanB host cfg t = .FileNotFound) ∧
    (host.pathOnDisk t = true →
       cfg.imageExtensions.contains (strToLower (extname (t.getLastD ""))) = false →
       runScanA host cfg t = .NotAnImage ∧ runScanB host cfg t = .NotAnImage) ∧
    (host.pathOnDisk t = true →
       cfg.imageExtensions.contains (strToLower (extname (t.getLastD ""))) = true →
       cfg.workspaceFolders = [] →
       runScanB host cfg t = .NoWorkspace) ∧
    (host.pathOnDisk t = true →
       cfg.imageExtensions.contains (strToLower (extname (t.getLastD ""))) = true →
       cfg.workspaceFolders = [] → host.hashContent t = none →
       runScanA host cfg t = .IOError) := by
  refine ⟨fun h1 => ?_, fun h1 h2 => ?_, fun h1 h2 h3 => ?_, fun h1 h2 h3 h4 => ?_⟩
  · constructor <;> simp [runScanA, runScanB, h1]
  · have h2m : ¬ strToLower (extname ((t.getLast?).getD "")) ∈ cfg.imageExtensions := by
      simpa using h2
    constructor <;> simp [runScanA, runScanB, h1, h2m]
  · have h2m : strToLower (extname ((t.getLast?).getD "")) ∈ cfg.imageExtensions := by
      simpa using h2
    simp [runScanB, h1, h2m, h3]
  · have h2m : strToLower (extname ((t.getLast?).getD "")) ∈ cfg.imageExtensions := by
      simpa using h2
    simp [runScanA, h1, h2m, h3, h4]

/-- Witness for C3's amended statement, at the counterexample fixture. -/
theorem c3_validate_before_hash_witness :
    runScanB hostHashFail cfgNoWs ["root", "t.png"] = .NoWorkspace ∧
    runScanA hostHashFail cfgNoWs ["root", "t.png"] = .IOError :=
  ⟨(c3_validate_before_hash hostHashFail cfgNoWs ["root", "t.png"]).2.2.1
      (by decide) (by decide) rfl,
   (c3_validate_before_hash hostHashFail cfgNoWs ["root", "t.png"]).2.2.2
      (by decide) (by decide) rfl rfl⟩

/-- C7: if hashing the target fails, the whole operation aborts with the
`IOError` outcome — in variant A regardless of the workspace state, in
variant B once the workspace validation has passed — and this holds for
every walker state, so no candidate enumeration influences the result;
whereas when the target hashes, the result is never `IOError`, no matter
how many candidate files fail to hash during the walk. -/
theorem c7_target_hash_fatal (host : HostFS) (cfg : Config) (t : FsPath)
    (hex : host.pathOnDisk t = true)
    (himg : cfg.imageExtensions.contains (strToLower (extname (t.getLastD ""))) = true) :
    (host.hashContent t = none → runScanA host cfg t = .IOError) ∧
    (host.hashContent t = none → ∀ w ws, cfg.workspaceFolders = w :: ws →
       runScanB host cfg t = .IOError) ∧
    (∀ tc w ws, host.hashContent t = some tc → cfg.workspaceFolders = w :: ws →
       runScanA host cfg t ≠ .IOError ∧ runScanB host cfg t ≠ .IOError) := by
  have himgm : strToLower (extname ((t.getLast?).getD "")) ∈ cfg.imageExtensions := by
    simpa using himg
  refine ⟨fun h1 => ?_, fun h1 w ws hws => ?_, fun tc w ws hhash hws => ?_⟩
  · simp [runScanA, hex, himgm, h1]
  · simp [runScanB, hex, himgm, h1, hws]
  · rw [runScanA_resolve host cfg t tc hex himg hhash w ws hws,
      runScanB_resolve host cfg t tc hex himg hhash w ws hws]
    constructor
    · by_cases h1 : (matchesA host cfg tc w).isEmpty
      · simp [h1]
      · by_cases h2 : ((matchesA host cfg tc w).filter (fun img => img.filePath != t)).isEmpty
        · simp [h1, h2]
        · simp [h1, h2]
    · by_cases h1 : (matchesB host cfg tc w).isEmpty
      · simp [h1]
      · by_cases h2 : ((matchesB host cfg tc w).filter (fun img => img.filePath != t)).isEmpty
        · simp [h1, h2]
        · simp [h1, h2]

/-- Witness for C7: the fixture whose every hash rejects, under a
configured workspace. -/
theorem c7_target_hash_fatal_witness :
    runScanA hostHashFail cfgW ["root", "t.png"] = .IOError ∧
    runScanB hostHashFail cfgW ["root", "t.png"] = .IOError :=
  ⟨(c7_target_hash_fatal hostHashFail cfgW ["root", "t.png"] (by decide) (by decide)).1 rfl,
   (c7_target_hash_fatal hostHashFail cfgW ["root", "t.png"] (by decide) (by decide)).2.1 rfl
      ["root"] [] rfl⟩
theorem runScanA_definite (host : HostFS) (cfg : Config) (t : FsPath) (tc : List Nat)
    (hex : host.pathOnDisk t = true)
    (himg : cfg.imageExtensions.contains (strToLower (extname (t.getLastD ""))) = true)
    (hhash : host.hashContent t = some tc)
    (w : FsPath) (ws : List FsPath) (hws : cfg.workspaceFolders = w :: ws) :
    runScanA host cfg t = .NoneFound ∨ runScanA host cfg t = .OnlySelfFound ∨
      ∃ l, runScanA host cfg t = .DuplicatesFound l := by
  rw [runScanA_resolve host cfg t tc hex himg hhash w ws hws]
  by_cases h1 : (matchesA host cfg tc w).isEmpty
  · simp [h1]
  · by_cases h2 : ((matchesA host cfg tc w).filter (fun img => img.filePath != t)).isEmpty
    · simp [h1, h2]
    · simp only [h1, h2, Bool.false_eq_true, if_false]
      exact Or.inr (Or.inr ⟨_, rfl⟩)

theorem runScanB_definite (host : HostFS) (cfg : Config) (t : FsPath) (tc : List Nat)
    (hex : host.pathOnDisk t = true)
    (himg : cfg.imageExtensions.contains (strToLower (extname (t.getLastD ""))) = true)
    (hhash : host.hashContent t = some tc)
    (w : FsPath) (ws : List FsPath) (hws : cfg.workspaceFolders = w :: ws) :
    runScanB host cfg t = .NoneFound ∨ runScanB host cfg t = .OnlySelfFound ∨
      ∃ l, runScanB host cfg t = .DuplicatesFound l := by
  rw [runScanB_resolve host cfg t tc hex himg hhash w ws hws]
  by_cases h1 : (matchesB host cfg tc w).isEmpty
  · simp [h1]
  · by_cases h2 : ((matchesB host cfg tc w).filter (fun img => img.filePath != t)).isEmpty
    · simp [h1, h2]
    · simp only [h1, h2, Bool.false_eq_true, if_false]
      exact Or.inr (Or.inr ⟨_, rfl⟩)

/-- C6: all three recoverable failures are local.  An unreadable directory
contributes nothing while the remaining entries are still scanned; a file
whose hash fails contributes no record while the remaining entries are
still scanned; a glob pattern that fails to resolve contributes nothing
while the remaining patterns are still scanned; every glob record comes
from a successful hash; and once the fatal validations and the target hash
have passed, both variants report one of the three definite outcomes
whatever the fixture contains. -/
theorem c6_recoverable_failures_local (normExts : List String) (root dirPath : FsPath) :
    (∀ name cs rest, scanChildren normExts root dirPath (.dir name false cs rest) =
        scanChildren normExts root dirPath rest) ∧
    (∀ name content rest,
        scanChildren normExts root dirPath (.file name content false rest) =
        scanChildren normExts root dirPath rest) ∧
    (∀ (host : HostFS) (w : FsPath) pat rest,
        host.findFiles pat "**/node_modules/**" = none →
        globPatternScan host normExts w (pat :: rest) = globPatternScan host normExts w rest) ∧
    (∀ (host : HostFS) (w : FsPath) pats r, r ∈ globPatternScan host normExts w pats →
        ∃ c, host.hashContent r.filePath = some c ∧ r.md5 = md5Hex c) ∧
    (∀ (host : HostFS) (cfg : Config) (t : FsPath) tc w ws,
        host.pathOnDisk t = true →
        cfg.imageExtensions.contains (strToLower (extname (t.getLastD ""))) = true →
        host.hashContent t = some tc → cfg.workspaceFolders = w :: ws →
        (runScanA host cfg t = .NoneFound ∨ runScanA host cfg t = .OnlySelfFound ∨
          ∃ l, runScanA host cfg t = .DuplicatesFound l) ∧
        (runScanB host cfg t = .NoneFound ∨ runScanB host cfg t = .OnlySelfFound ∨
          ∃ l, runScanB host cfg t = .DuplicatesFound l)) := by
  refine ⟨fun name cs rest => ?_, fun name content rest => ?_,
    fun host w pat rest h => ?_, fun host w pats r hr => ?_,
    fun host cfg t tc w ws hex himg hhash hws => ?_⟩
  · simp [scanChildren]
  · simp [scanChildren]
  · simp [globPatternScan, h]
  · obtain ⟨pat, files, fp, c, _, _, _, _, hc, rfl⟩ :=
      mem_globPatternScan host normExts w pats r hr
    exact ⟨c, hc, rfl⟩
  · exact ⟨runScanA_definite host cfg t tc hex himg hhash w ws hws,
      runScanB_definite host cfg t tc hex himg hhash w ws hws⟩

/-- Witness for C6, on concrete unreadable/failed fixtures. -/
theorem c6_recoverable_failures_local_witness :
    scanChildren [".png"] ["root"] ["root"]
        (.dir "locked" false (.file "a.png" [1] true .nil)
          (.file "b.png" [9] false (.file "c.png" [1] true .nil))) =
      scanChildren [".png"] ["root"] ["root"] (.file "c.png" [1] true .nil) := by
  have h := c6_recoverable_failures_local [".png"] ["root"] ["root"]
  rw [h.1 "locked" (.file "a.png" [1] true .nil)
      (.file "b.png" [9] false (.file "c.png" [1] true .nil)),
    h.2.1 "b.png" [9] (.file "c.png" [1] true .nil)]

/-- C10: a configured search root that does not exist on disk contributes
nothing to variant A's candidate gathering — the gathered records are
exactly those of the surviving, existing roots — and the scan still ends in
one of the three definite outcomes. -/
theorem c10_missing_roots_skipped (host : HostFS) (extensions : List String) :
    (∀ roots, allImagesA host extensions roots =
        allImagesA host extensions (roots.filter host.pathOnDisk)) ∧
    (∀ (cfg : Config) (t : FsPath) tc w ws,
        host.pathOnDisk t = true →
        cfg.imageExtensions.contains (strToLower (extname (t.getLastD ""))) = true →
        host.hashContent t = some tc → cfg.workspaceFolders = w :: ws →
        runScanA host cfg t = .NoneFound ∨ runScanA host cfg t = .OnlySelfFound ∨
          ∃ l, runScanA host cfg t = .DuplicatesFound l) := by
  constructor
  · intro roots
    induction roots with
    | nil => rfl
    | cons r rs ih =>
      cases hd : host.pathOnDisk r with
      | true => simp [allImagesA, List.filter_cons, hd, allImagesA] at ih ⊢; rw [ih]
      | false => simp [allImagesA, List.filter_cons, hd] at ih ⊢; rw [ih]
  · intro cfg t tc w ws hex himg hhash hws
    exact runScanA_definite host cfg t tc hex himg hhash w ws hws

/-- Witness for C10: a root list with one missing root gathers the same
records as its existing sublist. -/
theorem c10_missing_roots_skipped_witness :
    allImagesA hostW defaultExtensions [["missing"], ["root"]] =
      allImagesA hostW defaultExtensions ([["missing"], ["root"]].filter hostW.pathOnDisk) ∧
    allImagesA hostW defaultExtensions [["missing"], ["root"]] =
      allImagesA hostW defaultExtensions [["root"]] :=
  ⟨(c10_missing_roots_skipped hostW defaultExtensions).1 [["missing"], ["root"]], by decide⟩
theorem reachableTree_clean (t : FSNode)
    (q : List String × String × List Nat × Bool) (hq : q ∈ reachableTree t) :
    (∀ comp ∈ q.1, comp ≠ "node_modules" ∧ strStartsWith comp "." = false) ∧
      q.2.1 ≠ "node_modules" ∧ strStartsWith (q.2.1) "." = false := by
  cases t with
  | file content hashOk => simp [reachableTree] at hq
  | dir readable entries =>
    cases readable with
    | true => exact reachableFiles_clean entries q (by simpa [reachableTree] using hq)
    | false => simp [reachableTree] at hq

/-- C4: the recursive walker's output is exactly the reachable files (per
the traversal rules alone) mapped through the extension filter — a
reachable file yields a record precisely when its lowercased extension is in
the lowercased configured set and its hash succeeds, with no other
condition; and in glob mode every accepted record has passed the same
lowercased-extension re-filter even though pattern resolution may have
returned non-image paths. -/
theorem c4_extension_filter_exact (extensions : List String) (root : FsPath) (t : FSNode)
    (host : HostFS) (w : FsPath) (pats : List String) :
    scanImageFiles extensions root t =
      (reachableTree t).filterMap (recordOf (extensions.map strToLower) root root) ∧
    (∀ r ∈ globPatternScan host (extensions.map strToLower) w pats,
       (extensions.map strToLower).contains
         (strToLower (extname (r.filePath.getLastD ""))) = true) := by
  constructor
  · exact scanImageFiles_eq extensions root t
  · intro r hr
    obtain ⟨pat, files, fp, c, _, _, _, hext, _, rfl⟩ :=
      mem_globPatternScan host (extensions.map strToLower) w pats r hr
    exact hext

/-- Witness for C4 at the two-file fixture. -/
theorem c4_extension_filter_exact_witness :
    scanImageFiles defaultExtensions ["root"] treeW =
      (reachableTree treeW).filterMap
        (recordOf (defaultExtensions.map strToLower) ["root"] ["root"]) ∧
    scanImageFiles defaultExtensions ["root"] treeW =
      [⟨["root", "a.png"], "55a54008ad1ba589aa210d2629c1df41", ["a.png"]⟩,
       ⟨["root", "b.png"], "9e688c58a5487b8eaf69c9e1005ad0bf", ["b.png"]⟩] :=
  ⟨(c4_extension_filter_exact defaultExtensions ["root"] treeW hostW ["root"] []).1, by decide⟩

/-- C5: no record of the recursive walker lies under a directory named
`node_modules` or under a dot-prefixed directory (every directory component
of its relative path avoids both, because the walker refuses to enter such
entries at each level); and in glob mode, where only the single global
`'**/node_modules/**'` exclusion is passed to the host resolver, every
record avoids `node_modules` provided the host honours that exclusion. -/
theorem c5_excluded_directories (extensions : List String) (root : FsPath) (t : FSNode)
    (host : HostFS) (normExts : List String) (w : FsPath) (pats : List String)
    (hfind : ∀ pat files, host.findFiles pat "**/node_modules/**" = some files →
       ∀ fp ∈ files, "node_modules" ∉ fp) :
    (∀ r ∈ scanImageFiles extensions root t,
       ∀ comp ∈ r.relativePath.dropLast,
         comp ≠ "node_modules" ∧ strStartsWith comp "." = false) ∧
    (∀ r ∈ globPatternScan host normExts w pats, "node_modules" ∉ r.filePath) := by
  constructor
  · intro r hr comp hcomp
    obtain ⟨dirs, fname, c, hmem, _, rfl⟩ := mem_scanImageFiles extensions root t r hr
    obtain ⟨h1, _, _⟩ := reachableTree_clean t (dirs, fname, c, true) hmem
    refine h1 comp ?_
    simpa [List.dropLast_concat] using hcomp
  · intro r hr
    obtain ⟨pat, files, fp, c, _, hf, hfp, _, _, rfl⟩ :=
      mem_globPatternScan host normExts w pats r hr
    exact hfind pat files hf fp hfp

/-- Witness for C5, with the fixture host (its resolver returns no paths at
all, hence none under `node_modules`). -/
theorem c5_excluded_directories_witness :
    (∀ r ∈ scanImageFiles defaultExtensions ["root"] treeW,
       ∀ comp ∈ r.relativePath.dropLast,
         comp ≠ "node_modules" ∧ strStartsWith comp "." = false) ∧
    (∀ r ∈ globPatternScan hostW (defaultExtensions.map strToLower) ["root"] ["**"],
       "node_modules" ∉ r.filePath) :=
  c5_excluded_directories defaultExtensions ["root"] treeW hostW
    (defaultExtensions.map strToLower) ["root"] ["**"]
    (by intro pat files h fp hfp; cases h; simp at hfp)

/-- C9: in recursive mode a dot-prefixed entry is skipped whether it is a
directory or a file: no record's file name starts with `.`, and the
concrete dot-prefixed image `.icon.png` is never scanned even though its
extension `.png` is in the configured set. -/
theorem c9_dot_files_skipped (extensions : List String) (root : FsPath) (t : FSNode) :
    (∀ r ∈ scanImageFiles extensions root t,
       strStartsWith (r.relativePath.getLastD "") "." = false) ∧
    scanImageFiles defaultExtensions ["root"]
      (.dir true (.file ".icon.png" [7] true .nil)) = [] ∧
    (defaultExtensions.map strToLower).contains (strToLower (extname ".icon.png")) = true := by
  refine ⟨?_, by decide, by decide⟩
  intro r hr
  obtain ⟨dirs, fname, c, hmem, _, rfl⟩ := mem_scanImageFiles extensions root t r hr
  obtain ⟨_, _, h3⟩ := reachableTree_clean t (dirs, fname, c, true) hmem
  simpa [List.getLastD_concat] using h3

/-- Witness for C9 at the two-file fixture. -/
theorem c9_dot_files_skipped_witness :
    ∀ r ∈ scanImageFiles defaultExtensions ["root"] treeW,
      strStartsWith (r.relativePath.getLastD "") "." = false :=
  (c9_dot_files_skipped defaultExtensions ["root"] treeW).1
/-- C8: the fingerprint is a deterministic, fixed-length function of the
file's byte content.  Two runs of `calculateMD5` over the same bytes give
the same 32-character hex digest even when the read stream delivers the
bytes in different chunkings, and the digest is order-sensitive in the byte
stream (swapping two bytes changes it). -/
theorem c8_hash_deterministic (chunks1 chunks2 : List (List Nat))
    (hbytes : chunks1.flatten = chunks2.flatten) (content : List Nat) :
    md5StreamHex chunks1 = md5StreamHex chunks2 ∧
    (md5Hex content).length = 32 ∧
    md5Hex [0, 1] ≠ md5Hex [1, 0] := by
  refine ⟨?_, md5Hex_length content, by decide⟩
  rw [md5StreamHex_flatten, md5StreamHex_flatten, hbytes]

/-- Witness for C8: two different chunkings of the same three bytes. -/
theorem c8_hash_deterministic_witness :
    md5StreamHex [[104, 105], [33]] = md5StreamHex [[104], [105, 33]] ∧
    (md5Hex [104, 105, 33]).length = 32 ∧
    md5Hex [0, 1] ≠ md5Hex [1, 0] :=
  c8_hash_deterministic [[104, 105], [33]] [[104], [105, 33]] rfl [104, 105, 33]

/-- C2 counterexample: with the non-empty `searchPaths = ["sub"]`, variant A
recursively walks the literal subdirectory `root/sub` (finding the nested
duplicate `root/sub/nested/a.png`), while interpreting `sub` as a glob
pattern — variant B, with the host resolving that pattern to no files —
yields `NoneFound`; so it is not true that every invocation interprets a
non-empty `searchPaths` as glob patterns. -/
theorem c2_counterexample :
    runScanA hostC2 cfgC2 ["root", "t.png"] =
      .DuplicatesFound [⟨["root", "sub", "nested", "a.png"],
        "55a54008ad1ba589aa210d2629c1df41", ["nested", "a.png"]⟩] ∧
    runScanB hostC2 cfgC2 ["root", "t.png"] = .NoneFound ∧
    runScanA hostC2 cfgC2 ["root", "t.png"] ≠ runScanB hostC2 cfgC2 ["root", "t.png"] :=
  ⟨by decide, by decide, by decide⟩

/-- C2 amended: an empty `searchPaths` falls back, in both variants, to
recursively walking the single workspace root; a non-empty `searchPaths` is
interpreted as glob include patterns only in variant B, while variant A
treats each entry as a literal workspace-relative subdirectory joined onto
the workspace root and walked recursively. -/
theorem c2_search_paths_interpretation (host : HostFS) (cfg : Config) (w : FsPath) :
    (cfg.searchPaths = [] →
       scanImageFilesWithGlob host cfg cfg.searchPaths w =
         scanImageFiles cfg.imageExtensions w (host.treeAt w) ∧
       searchRootsA cfg w = [w]) ∧
    (cfg.searchPaths ≠ [] →
       scanImageFilesWithGlob host cfg cfg.searchPaths w =
         globPatternScan host (cfg.imageExtensions.map strToLower) w cfg.searchPaths ∧
       searchRootsA cfg w = cfg.searchPaths.map (fun p => w ++ [p])) := by
  constructor
  · intro h
    refine ⟨?_, ?_⟩
    · rw [h]
      simp [scanImageFilesWithGlob]
    · simp [searchRootsA, h]
  · intro h
    have hne : ¬ cfg.searchPaths.length = 0 := by
      simpa [List.length_eq_zero] using h
    refine ⟨?_, ?_⟩
    · simp [scanImageFilesWithGlob, hne]
    · simp [searchRootsA, Nat.pos_of_ne_zero hne]

/-- Witness for C2's amended statement: the empty-path fixture falls back to
the recursive walk, the `["sub"]` fixture resolves via the glob loop while
variant A's roots are the literal join. -/
theorem c2_search_paths_interpretation_witness :
    (scanImageFilesWithGlob hostW cfgW cfgW.searchPaths ["root"] =
       scanImageFiles cfgW.imageExtensions ["root"] (hostW.treeAt ["root"]) ∧
     searchRootsA cfgW ["root"] = [["root"]]) ∧
    (scanImageFilesWithGlob hostC2 cfgC2 cfgC2.searchPaths ["root"] =
       globPatternScan hostC2 (cfgC2.imageExtensions.map strToLower) ["root"]
         cfgC2.searchPaths ∧
     searchRootsA cfgC2 ["root"] = [["root", "sub"]]) :=
  ⟨(c2_search_paths_interpretation hostW cfgW ["root"]).1 rfl,
   by
     have h := (c2_search_paths_interpretation hostC2 cfgC2 ["root"]).2 (by decide)
     refine ⟨h.1, ?_⟩
     rw [h.2]
     decide⟩

end ImageDup
